import Mathlib

/-!
Verification of the wust-socket WebSocket protocol engine.

This file shallowly embeds the core of the repository (frame encoder
`src/frames/data.rs`, incremental frame decoder `src/frames/decode.rs`,
message reassembly `src/ws/event.rs` / `src/ws/frame_handler.rs`, keepalive
`src/protocol/ping.rs` / `src/ws/websocket.rs`) into Lean and proves /
refutes the frozen specification claims about it.

Bytes are modelled as `Nat` (operations keep values below 256 where the
source does); `usize` is modelled as unlimited `Nat` mirroring a 64-bit
platform, and machine-width arithmetic is made explicit with `% 2^w`
where the source can overflow.  The `RolePolicy` type parameter of the
source becomes an explicit `server : Bool` flag (`P::SERVER`; `P::CLIENT`
is its negation), matching the two instances `Client`/`Server`.
-/

namespace WustSocket

/-- Frame-payload ceiling from `src/lib.rs` (default, non-`autobahn` build):
`MAX_FRAME_PAYLOAD = 16 * 1024`. -/
def MAX_FRAME_PAYLOAD : Nat := 16 * 1024

/-- Message-size ceiling from `src/lib.rs`: `MAX_MESSAGE_SIZE = 16 * 1024 * 1024`. -/
def MAX_MESSAGE_SIZE : Nat := 16 * 1024 * 1024

/-- `BytesMut::split_to(n)` / slice splitting: returns the first `n` bytes and
the rest; `none` models the Rust panic when `n` exceeds the buffer length. -/
def splitTo (n : Nat) (l : List Nat) : Option (List Nat × List Nat) :=
  if n ≤ l.length then some (l.take n, l.drop n) else none

/-- XOR-mask a buffer against a 4-byte key starting at offset `i`
(`src/protocol/mask.rs`, `mask_lin`: `payload[i] ^= mask_key[i % 4]`). -/
def maskFrom (key : List Nat) : Nat → List Nat → List Nat
  | _, [] => []
  | i, b :: rest => (b ^^^ key.getD (i % 4) 0) :: maskFrom key (i + 1) rest

/-- The masking primitive `crate::protocol::mask`. -/
def maskBytes (key : List Nat) (payload : List Nat) : List Nat :=
  maskFrom key 0 payload

/-- Big-endian bytes of a `u16` (`u16::to_be_bytes` after `as u16`). -/
def be2 (n : Nat) : List Nat := [n / 256 % 256, n % 256]

/-- Big-endian bytes of a `u64` (`u64::to_be_bytes` after `as u64`). -/
def be8 (n : Nat) : List Nat :=
  [n / 2 ^ 56 % 256, n / 2 ^ 48 % 256, n / 2 ^ 40 % 256, n / 2 ^ 32 % 256,
   n / 2 ^ 24 % 256, n / 2 ^ 16 % 256, n / 2 ^ 8 % 256, n % 256]

/-- `u16::from_be_bytes` on a 2-byte buffer. -/
def fromBe2 (l : List Nat) : Nat := l.getD 0 0 * 256 + l.getD 1 0

/-- `u64::from_be_bytes` on an 8-byte buffer. -/
def fromBe8 (l : List Nat) : Nat :=
  l.getD 0 0 * 2 ^ 56 + l.getD 1 0 * 2 ^ 48 + l.getD 2 0 * 2 ^ 40 +
    l.getD 3 0 * 2 ^ 32 + l.getD 4 0 * 2 ^ 24 + l.getD 5 0 * 2 ^ 16 +
    l.getD 6 0 * 2 ^ 8 + l.getD 7 0

/-- WebSocket opcodes (`src/frames/opcode.rs`). -/
inductive Opcode
  | cont
  | text
  | bin
  | close
  | ping
  | pong
deriving DecidableEq, Repr

/-- The wire value of an opcode (`Opcode as u8`). -/
def Opcode.val : Opcode → Nat
  | .cont => 0x0
  | .text => 0x1
  | .bin => 0x2
  | .close => 0x8
  | .ping => 0x9
  | .pong => 0xA

/-- `Opcode::try_from(u8)`. -/
def Opcode.tryFrom (n : Nat) : Option Opcode :=
  if n = 0x0 then some .cont
  else if n = 0x1 then some .text
  else if n = 0x2 then some .bin
  else if n = 0x8 then some .close
  else if n = 0x9 then some .ping
  else if n = 0xA then some .pong
  else none

/-- `Opcode::is_control`. -/
def Opcode.isControl : Opcode → Bool
  | .close | .ping | .pong => true
  | _ => false

/-- A UTF-8 continuation byte (`0x80..=0xBF`). -/
def isUtf8Cont (b : Nat) : Bool := 0x80 ≤ b && b ≤ 0xBF

/-- `str::from_utf8(bytes).is_ok()`: standard UTF-8 well-formedness
(shortest forms only, surrogates excluded, ≤ U+10FFFF). -/
def utf8Valid : List Nat → Bool
  | [] => true
  | b :: rest =>
    if b ≤ 0x7F then utf8Valid rest
    else if 0xC2 ≤ b && b ≤ 0xDF then
      match rest with
      | c1 :: rest2 => isUtf8Cont c1 && utf8Valid rest2
      | [] => false
    else if b = 0xE0 then
      match rest with
      | c1 :: c2 :: rest2 =>
        (0xA0 ≤ c1 && c1 ≤ 0xBF) && isUtf8Cont c2 && utf8Valid rest2
      | _ => false
    else if 0xE1 ≤ b && b ≤ 0xEC then
      match rest with
      | c1 :: c2 :: rest2 => isUtf8Cont c1 && isUtf8Cont c2 && utf8Valid rest2
      | _ => false
    else if b = 0xED then
      match rest with
      | c1 :: c2 :: rest2 =>
        (0x80 ≤ c1 && c1 ≤ 0x9F) && isUtf8Cont c2 && utf8Valid rest2
      | _ => false
    else if 0xEE ≤ b && b ≤ 0xEF then
      match rest with
      | c1 :: c2 :: rest2 => isUtf8Cont c1 && isUtf8Cont c2 && utf8Valid rest2
      | _ => false
    else if b = 0xF0 then
      match rest with
      | c1 :: c2 :: c3 :: rest2 =>
        (0x90 ≤ c1 && c1 ≤ 0xBF) && isUtf8Cont c2 && isUtf8Cont c3 && utf8Valid rest2
      | _ => false
    else if 0xF1 ≤ b && b ≤ 0xF3 then
      match rest with
      | c1 :: c2 :: c3 :: rest2 =>
        isUtf8Cont c1 && isUtf8Cont c2 && isUtf8Cont c3 && utf8Valid rest2
      | _ => false
    else if b = 0xF4 then
      match rest with
      | c1 :: c2 :: c3 :: rest2 =>
        (0x80 ≤ c1 && c1 ≤ 0x8F) && isUtf8Cont c2 && isUtf8Cont c3 && utf8Valid rest2
      | _ => false
    else false

/-- `is_valid_close_payload` (`src/frames/decode.rs`): a Close payload is
empty, or at least 2 bytes whose big-endian leading code is in
`1000..=1011 | 3000..=4999` with a valid UTF-8 remainder. -/
def isValidClosePayload (bytes : List Nat) : Bool :=
  match bytes with
  | [] => true
  | [_] => false
  | b0 :: b1 :: rest =>
    let code := b0 * 256 + b1
    ((1000 ≤ code && code ≤ 1011) || (3000 ≤ code && code ≤ 4999)) && utf8Valid rest

/-! ## Frame encoder (`src/frames/data.rs`) -/

/-- Set the MASK bit on the length byte: `buf[1] |= 0x80` (the byte at
index 1 of the frame is the head of the length encoding). -/
def setMaskBit : List Nat → List Nat
  | [] => []
  | b :: rest => (b ||| 0x80) :: rest

/-- The length encoding pushed by `single_frame`'s `match chunk.len()`:
`0..=125` → one byte, `126..=65535` → `126` + 2 BE bytes, else `127` +
8 BE bytes. -/
def lenBytes (n : Nat) : List Nat :=
  if n ≤ 125 then [n]
  else if n ≤ 65535 then 126 :: be2 n
  else 127 :: be8 n

/-- `DataFrame::single_frame`: one wire frame for a chunk.  The Rust code
draws a fresh random 4-byte mask key per frame (`rand::fill`); the key is
taken here as an explicit argument. -/
def singleFrame (client : Bool) (key : List Nat) (op : Opcode)
    (first last compressed : Bool) (chunk : List Nat) : List Nat :=
  let b1 := (if first then op.val else Opcode.cont.val) |||
      (if last then 0x80 else 0) |||
      (if first && compressed then 0x40 else 0)
  if client then
    b1 :: setMaskBit (lenBytes chunk.length) ++ key ++ maskBytes key chunk
  else
    b1 :: lenBytes chunk.length ++ chunk

/-- Chunk-splitting worker, structurally recursive on a fuel bound (any
fuel at least `l.length` gives the fixpoint of the natural recursion). -/
def chunksGo (n : Nat) : Nat → List Nat → List (List Nat) × List Nat
  | 0, l => ([], l)
  | fuel + 1, l =>
    if n ≤ l.length ∧ n ≠ 0 then
      ((l.take n) :: (chunksGo n fuel (l.drop n)).1, (chunksGo n fuel (l.drop n)).2)
    else ([], l)

/-- `slice::as_chunks::<N>`: the maximal list of exact `n`-chunks of `l`
together with the remainder (possibly empty). -/
def chunksExact (n : Nat) (l : List Nat) : List (List Nat) × List Nat :=
  chunksGo n l.length l

/-- The frame-emission loop of `DataFrame::all_frames`: every exact chunk is
a non-final frame, the remainder is the final frame; the `first` flag is
threaded exactly as the mutable `first` in the source, and `i` indexes the
per-frame random mask key. -/
def allFramesGo (client : Bool) (keys : Nat → List Nat) (op : Opcode)
    (compressed : Bool) : List (List Nat) → List Nat → Nat → Bool → List (List Nat)
  | [], remainder, i, first =>
    [singleFrame client (keys i) op first true compressed remainder]
  | c :: cs, remainder, i, first =>
    singleFrame client (keys i) op first false compressed c ::
      allFramesGo client keys op compressed cs remainder (i + 1) false

/-- `DataFrame::all_frames`. -/
def allFrames (client : Bool) (keys : Nat → List Nat) (op : Opcode)
    (compressed : Bool) (payload : List Nat) : List (List Nat) :=
  let split := chunksExact MAX_FRAME_PAYLOAD payload
  allFramesGo client keys op compressed split.1 split.2 0 true

/-- `DataFrame::encode` on a fresh compression context: with a deflater the
payload is first run through the DEFLATE stream (for a fresh engine both
`use_context` branches write the sync-flushed compressor output for this
message starting at offset `end = 0`; `deflate` abstracts that external
`flate2` stream) and the frames are emitted with `compressed = true`. -/
def dataFrameEncode (client : Bool) (keys : Nat → List Nat) (op : Opcode)
    (deflater : Option (List Nat → List Nat)) (payload : List Nat) :
    List (List Nat) :=
  match deflater with
  | some deflate => allFrames client keys op true (deflate payload)
  | none => allFrames client keys op false payload

/-! ## Frame decoder (`src/frames/decode.rs`) -/

/-- `DecodeState`. -/
inductive DecodeState
  | header1
  | header2
  | extendedLen
  | mask
  | payload
deriving DecidableEq, Repr

/-- `DecodeContext`: per-frame context reset at each `Header1`. -/
structure DecodeContext where
  isFin : Bool
  opcode : Opcode
  payloadLen : Nat
  maskKey : List Nat
  compressed : Bool
deriving DecidableEq, Repr

/-- `DecodedFrame`. -/
structure DecodedFrame where
  opcode : Opcode
  payload : List Nat
  isFin : Bool
  compressed : Bool
deriving DecidableEq, Repr

/-- `FrameDecoder<P>`: the role parameter `P` is carried as the field
`server` (`P::SERVER`); `compressed` is the negotiated-compression flag
passed to `FrameDecoder::new`. -/
structure FrameDecoder where
  server : Bool
  buf : List Nat
  state : DecodeState
  ctx : DecodeContext
  compressed : Bool
deriving DecidableEq, Repr

/-- `FrameDecoder::new` followed by `push_bytes`. -/
def FrameDecoder.new (server compressed : Bool) (bytes : List Nat) : FrameDecoder :=
  { server := server
    buf := bytes
    state := .header1
    ctx := { isFin := false, opcode := .cont, payloadLen := 0,
             maskKey := [0, 0, 0, 0], compressed := false }
    compressed := compressed }

/-- The outcome of one `next_frame` call.  `pending` is `Ok(None)` (empty
buffer at `Header1`), `panicked` marks a Rust panic (an unguarded buffer
split), which `next_frame` is claimed never to reach. -/
inductive NextFrameResult
  | complete (f : DecodedFrame)
  | incomplete
  | pending
  | protoError
  | sizeErr
  | panicked
deriving DecidableEq, Repr

/-- The `Payload` arm of `next_frame` (`parse_payload` plus the surrounding
state update and frame emission). -/
def stepPayload (d : FrameDecoder) : FrameDecoder × NextFrameResult :=
  if d.buf.length < d.ctx.payloadLen then (d, .incomplete)
  else if d.ctx.payloadLen > MAX_FRAME_PAYLOAD then
    ({ d with buf := [], state := .header1 }, .sizeErr)
  else
    match splitTo d.ctx.payloadLen d.buf with
    | none => (d, .panicked)
    | some (raw, rest) =>
      let payload := if d.server then maskBytes d.ctx.maskKey raw else raw
      if d.ctx.opcode = .close && !isValidClosePayload payload then
        ({ d with buf := rest }, .protoError)
      else
        ({ d with buf := rest, state := .header1 },
         .complete { opcode := d.ctx.opcode, payload := payload,
                     isFin := d.ctx.isFin, compressed := d.ctx.compressed })

/-- The `Mask` arm of `next_frame`: pop a 4-byte mask key
(`pop_n::<4>`, `Ok(Some(Incomplete))` when under-supplied). -/
def stepMask (d : FrameDecoder) : FrameDecoder × NextFrameResult :=
  match splitTo 4 d.buf with
  | none => (d, .incomplete)
  | some (k, rest) =>
    stepPayload { d with buf := rest, state := .payload,
                         ctx := { d.ctx with maskKey := k } }

/-- `parse_extended_len` plus the loop's state update: 2 big-endian bytes
when the 7-bit length was 126, else 8; `usize::try_from(u64)` always
succeeds on the modelled 64-bit platform (its `Err` branch, `SizeErr`, is
only reachable on 32-bit targets). -/
def stepExtendedLen (d : FrameDecoder) : FrameDecoder × NextFrameResult :=
  if d.ctx.payloadLen = 126 then
    match splitTo 2 d.buf with
    | none => (d, .incomplete)
    | some (lenBytes, rest) =>
      let d2 := { d with buf := rest, ctx := { d.ctx with payloadLen := fromBe2 lenBytes } }
      if d.server then stepMask { d2 with state := .mask }
      else stepPayload { d2 with state := .payload }
  else
    match splitTo 8 d.buf with
    | none => (d, .incomplete)
    | some (lenBytes, rest) =>
      let d2 := { d with buf := rest, ctx := { d.ctx with payloadLen := fromBe8 lenBytes } }
      if d.server then stepMask { d2 with state := .mask }
      else stepPayload { d2 with state := .payload }

/-- `parse_header2` plus the loop's state update: MASK bit must agree with
the role; 7-bit length; control-frame validation. -/
def stepHeader2 (d : FrameDecoder) : FrameDecoder × NextFrameResult :=
  if d.buf.isEmpty then (d, .incomplete)
  else
    match splitTo 1 d.buf with
    | none => (d, .panicked)
    | some (bs, rest) =>
      let b := bs.getD 0 0
      let masked := decide (b &&& 0x80 > 0)
      if d.server ≠ masked then ({ d with buf := rest }, .protoError)
      else
        let d2 := { d with buf := rest, ctx := { d.ctx with payloadLen := b &&& 0x7F } }
        if d2.ctx.opcode.isControl &&
            (!d2.ctx.isFin || d2.ctx.compressed || decide (d2.ctx.payloadLen > 125)) then
          (d2, .protoError)
        else if d2.ctx.payloadLen > 125 then
          stepExtendedLen { d2 with state := .extendedLen }
        else if d2.server then stepMask { d2 with state := .mask }
        else stepPayload { d2 with state := .payload }

/-- `parse_header1` plus the loop's state update: RSV2/RSV3 always reject,
RSV1 rejects unless compression was negotiated; reserved opcodes reject;
the per-frame context is reset. -/
def stepHeader1 (d : FrameDecoder) : FrameDecoder × NextFrameResult :=
  if d.buf.isEmpty then (d, .pending)
  else
    match splitTo 1 d.buf with
    | none => (d, .panicked)
    | some (bs, rest) =>
      let b := bs.getD 0 0
      let rsv := decide (b &&& 0x30 > 0)
      let compressed := decide (b &&& 0x40 > 0)
      if rsv || (compressed && !d.compressed) then ({ d with buf := rest }, .protoError)
      else
        match Opcode.tryFrom (b &&& 0xF) with
        | none => ({ d with buf := rest }, .protoError)
        | some op =>
          stepHeader2
            { d with buf := rest, state := .header2,
                     ctx := { isFin := decide (b &&& 0x80 > 0), opcode := op,
                              payloadLen := 0, maskKey := [0, 0, 0, 0],
                              compressed := compressed } }

/-- `FrameDecoder::next_frame`: the decoder loop, dispatched on the saved
state.  Each loop iteration strictly advances the state, so the loop is the
composition of the step functions above. -/
def nextFrame (d : FrameDecoder) : FrameDecoder × NextFrameResult :=
  match d.state with
  | .header1 => stepHeader1 d
  | .header2 => stepHeader2 d
  | .extendedLen => stepExtendedLen d
  | .mask => stepMask d
  | .payload => stepPayload d

/-- Drive `next_frame` repeatedly (as the reader loop does), collecting the
completed frames and the first non-`Complete` outcome; `fuel` bounds the
number of calls. -/
def decodeLoop : Nat → FrameDecoder → List DecodedFrame × NextFrameResult
  | 0, _ => ([], .incomplete)
  | fuel + 1, d =>
    match nextFrame d with
    | (d2, .complete f) =>
      let rest := decodeLoop fuel d2
      (f :: rest.1, rest.2)
    | (_, r) => ([], r)

/-- Specification of the decoded frames a fragmented encoding should
produce: one frame per exact chunk (non-final) plus the remainder frame
(final); the first frame carries the opcode and the RSV1/compressed flag,
all later frames are Continuations. -/
def expectedFrames (op : Opcode) (compressed : Bool) :
    List (List Nat) → List Nat → Bool → List DecodedFrame
  | [], remainder, first =>
    [{ opcode := if first then op else Opcode.cont, payload := remainder,
       isFin := true, compressed := first && compressed }]
  | c :: cs, remainder, first =>
    { opcode := if first then op else Opcode.cont, payload := c,
      isFin := false, compressed := first && compressed } ::
      expectedFrames op compressed cs remainder false

/-! ## Close reasons (`src/error.rs`) -/

/-- `CloseReason`. -/
inductive CloseReason
  | normal
  | goingAway
  | protoError
  | dataType
  | rsv
  | noneGiven
  | abnormal
  | dataError
  | policy
  | tooBig
  | extension
  | unexpected
  | tls
  | unknown
deriving DecidableEq, Repr

/-- `impl From<[u8; 2]> for CloseReason`, on the decoded `u16` code. -/
def CloseReason.fromCode (code : Nat) : CloseReason :=
  if code = 1000 then .normal
  else if code = 1001 then .goingAway
  else if code = 1002 then .protoError
  else if code = 1003 then .dataType
  else if code = 1004 then .rsv
  else if code = 1005 then .noneGiven
  else if code = 1006 then .abnormal
  else if code = 1007 then .dataError
  else if code = 1008 then .policy
  else if code = 1009 then .tooBig
  else if code = 1010 then .extension
  else if code = 1011 then .unexpected
  else if code = 1015 then .tls
  else .unknown

/-! ## Keepalive state (`src/protocol/ping.rs`) -/

/-- `PingStats`: a 5-slot ring of RTTs (`u16` milliseconds), the write
index, the last ping nonce (8 bytes), and the last ping emission time
(`Instant`, modelled as a millisecond timestamp). -/
structure PingStats where
  history : List (Option Nat)
  idx : Nat
  lastNonce : List Nat
  lastPing : Nat
deriving DecidableEq, Repr

/-- `PingStats::new` at timestamp `t0`. -/
def PingStats.init (t0 : Nat) : PingStats :=
  { history := List.replicate 5 none, idx := 0,
    lastNonce := List.replicate 8 0, lastPing := t0 }

/-- `PongError`. -/
inductive PongError
  | nonce (expected : List Nat)
  | late (ms : Nat)
deriving DecidableEq, Repr

/-- `PingStats::add`: write the RTT at the current index and advance it. -/
def PingStats.add (s : PingStats) (rtt : Nat) : PingStats :=
  { s with history := s.history.set s.idx (some rtt), idx := (s.idx + 1) % 5 }

/-- `PingStats::on_pong` at current time `now` (so the elapsed milliseconds
are `now - lastPing`); `u16::try_from` succeeds exactly when the elapsed
time is at most 65535. -/
def PingStats.onPong (s : PingStats) (nonce : List Nat) (now : Nat) :
    PingStats × Except PongError Nat :=
  if nonce = s.lastNonce then
    let latencyMs := now - s.lastPing
    if latencyMs ≤ 65535 then (s.add latencyMs, .ok latencyMs)
    else (s, .error (.late latencyMs))
  else (s, .error (.nonce s.lastNonce))

/-- `PingStats::average`: the accumulator `sum` is inferred as `u16` in the
source, so each addition is 16-bit (wrapping in a release build; a debug
build panics on overflow instead); `checked_div` yields `None` exactly when
no slot is populated. -/
def PingStats.average (s : PingStats) : Option Nat :=
  let acc := s.history.foldl
    (fun (p : Nat × Nat) x =>
      match x with
      | some v => ((p.1 + v) % 65536, p.2 + 1)
      | none => p)
    (0, 0)
  if acc.2 = 0 then none else some (acc.1 / acc.2)

/-! ## Frame handling in the reader task (`src/ws/frame_handler.rs`) -/

/-- Events surfaced to callers (`src/ws/event.rs` and the `Error` variant
used by `src/ws/websocket.rs`). -/
inductive WsEvent
  | pong (latencyMs : Nat)
  | text (s : List Nat)
  | binary (b : List Nat)
  | closed
  | error (b : List Nat)
deriving DecidableEq, Repr

/-- Output of `handle_pong`: the updated ping stats, the events pushed on
the event channel, and the reasons of Close frames pushed on the close
channel. -/
structure HandlePongOut where
  stats : PingStats
  events : List WsEvent
  closes : List CloseReason
deriving DecidableEq, Repr

/-- `handle_pong`: an 8-byte payload is matched against the outstanding
nonce via `on_pong`; a match within `u16` range emits `Event::Pong`, a late
match closes with `Policy` ("ping timeout"), a mismatch is ignored, and a
payload that is not 8 bytes is ignored entirely. -/
def handlePong (stats : PingStats) (now : Nat) (payload : List Nat) : HandlePongOut :=
  if payload.length = 8 then
    match stats.onPong payload now with
    | (s2, .ok latency) => { stats := s2, events := [.pong latency], closes := [] }
    | (s2, .error (.late _)) => { stats := s2, events := [], closes := [.policy] }
    | (s2, .error (.nonce _)) => { stats := s2, events := [], closes := [] }
  else { stats := stats, events := [], closes := [] }

/-- Output of `handle_close`: the `closing` flag after the call and the
reasons of Close frames sent in reply. -/
structure HandleCloseOut where
  closing : Bool
  closes : List CloseReason
deriving DecidableEq, Repr

/-- `handle_close`: `none` models a Rust panic.  The close code is read
from bytes 0/1 when the payload is non-empty (`frame.payload[1]` panics on
a 1-byte payload); never-on-wire codes are answered with `ProtoError`,
everything else with `Normal`.  The reply text is checked on the slice
`&frame.payload[2..]`, which panics whenever the payload is shorter than
2 bytes — including the empty payload. -/
def handleClose (closing : Bool) (payload : List Nat) : Option HandleCloseOut :=
  let code : Option CloseReason :=
    if payload.isEmpty then some .normal
    else
      match payload with
      | b0 :: b1 :: _ => some (CloseReason.fromCode (b0 * 256 + b1))
      | _ => none
  match code with
  | none => none
  | some c =>
    let reason : CloseReason :=
      match c with
      | .rsv | .noneGiven | .abnormal | .tls => .protoError
      | _ => .normal
    if payload.length < 2 then none
    else if !utf8Valid (payload.drop 2) then
      some { closing := closing, closes := [.protoError] }
    else if closing then some { closing := true, closes := [] }
    else some { closing := true, closes := [reason] }

/-! ## Message reassembly (`src/ws/event.rs`, `src/ws/frame_handler.rs`) -/

/-- `PartialMessage`. -/
inductive PartialMessage
  | text (buf : List Nat)
  | bin (buf : List Nat)
deriving DecidableEq, Repr

/-- The accumulated bytes (`PartialMessage::len` / the shared buffer). -/
def PartialMessage.buf : PartialMessage → List Nat
  | .text v | .bin v => v

/-- `PartialMessage::push_bytes`. -/
def PartialMessage.push (p : PartialMessage) (bytes : List Nat) : PartialMessage :=
  match p with
  | .text v => .text (v ++ bytes)
  | .bin v => .bin (v ++ bytes)

/-- `MessageError`. -/
inductive MessageError
  | utf8
  | deflate
deriving DecidableEq, Repr

/-- The partial message started for a Text or Binary opcode, holding
`data` (`PartialMessage::text()` / `::binary()` after appends). -/
def mkPartial (op : Opcode) (data : List Nat) : PartialMessage :=
  if op = Opcode.text then .text data else .bin data

/-- `PartialMessage::into_message` on a fresh inflater context (offset
`end = 0`): when an inflater is negotiated, the DEFLATE tail
`00 00 FF FF` is appended first unless `use_context` is set, and the
abstract `inflate` returns the decompressor output for the written bytes
(`none` models a `write_all`/`flush` error, i.e. a bad deflate stream);
Text messages are then validated as UTF-8. -/
def intoMessage (inflater : Option (List Nat → Option (List Nat)))
    (useContext : Bool) (pm : PartialMessage) : Except MessageError WsEvent :=
  let data := pm.buf
  let isText := match pm with | .text _ => true | .bin _ => false
  let inflated : Except MessageError (List Nat) :=
    match inflater with
    | some inflate =>
      let input := if useContext then data else data ++ [0, 0, 0xFF, 0xFF]
      match inflate input with
      | some out => .ok out
      | none => .error .deflate
    | none => .ok data
  match inflated with
  | .error e => .error e
  | .ok data2 =>
    if isText then
      if utf8Valid data2 then .ok (.text data2) else .error .utf8
    else .ok (.binary data2)

/-- The body of `handle_data` once a partial message has been selected:
message-size check, fragment append, and on the final fragment the
assembly via `into_message` (whose `Utf8` failure closes with `DataError`
and `Deflate` failure with `ProtoError`). -/
def handleDataWith (inflater : Option (List Nat → Option (List Nat)))
    (useContext : Bool) (f : DecodedFrame) (p : PartialMessage) :
    Except CloseReason (Option PartialMessage × List WsEvent) :=
  if p.buf.length + f.payload.length > MAX_MESSAGE_SIZE then .error .tooBig
  else
    let p2 := p.push f.payload
    if f.isFin then
      match intoMessage inflater useContext p2 with
      | .ok msg => .ok (none, [msg])
      | .error .utf8 => .error .dataError
      | .error .deflate => .error .protoError
    else .ok (some p2, [])

/-- `handle_data`: dispatch on the pending partial message and the frame
opcode; a Text/Binary frame starts a message only when none is pending, a
Continuation extends a pending one only when its RSV1 bit is clear, and
every other combination closes with `ProtoError` ("Unexpected frame"). -/
def handleData (inflater : Option (List Nat → Option (List Nat)))
    (useContext : Bool) (f : DecodedFrame) (pm : Option PartialMessage) :
    Except CloseReason (Option PartialMessage × List WsEvent) :=
  match pm, f.opcode with
  | none, .text => handleDataWith inflater useContext f (.text [])
  | none, .bin => handleDataWith inflater useContext f (.bin [])
  | some p, .cont =>
    if f.compressed then .error .protoError
    else handleDataWith inflater useContext f p
  | _, _ => .error .protoError

/-- Feed a stream of decoded data frames through `handle_data`, as the
reader loop does, accumulating the emitted events; a close stops the
processing with its reason. -/
def runFrames (inflater : Option (List Nat → Option (List Nat)))
    (useContext : Bool) : List DecodedFrame → Option PartialMessage →
    List WsEvent → Except CloseReason (Option PartialMessage × List WsEvent)
  | [], pm, acc => .ok (pm, acc)
  | f :: fs, pm, acc =>
    match handleData inflater useContext f pm with
    | .ok (pm2, evs) => runFrames inflater useContext fs pm2 (acc ++ evs)
    | .error r => .error r

/-! ## Keepalive loop and sending (`src/ws/websocket.rs`) -/

/-- Actions taken by one `ping_loop` tick. -/
inductive PingAction
  | sendPing
  | sendClose (reason : CloseReason)
  | exitLoop
deriving DecidableEq, Repr

/-- One iteration of `WebSocket::ping_loop` after `interval.tick()`:
`pingSent` is the task-local `ping_sent : Option<Instant>`; the tick runs
at time `now` with the given `closing` flag and `last_seen.elapsed()`.
Nothing in the engine ever resets `ping_sent` — in particular a processed
Pong (which lives in `handle_pong` on the reader task) cannot. -/
def pingLoopTick (intervalSecs : Nat) (closing : Bool) (lastSeenElapsed : Nat)
    (now : Nat) (pingSent : Option Nat) : Option Nat × List PingAction :=
  if closing then (pingSent, [.exitLoop])
  else if lastSeenElapsed ≥ intervalSecs && pingSent.isNone then
    (some now, [.sendPing])
  else
    match pingSent with
    | some sent =>
      if now - sent ≥ 2 * intervalSecs then (pingSent, [.sendClose .policy])
      else (pingSent, [])
    | none => (pingSent, [])

/-- `Sender::send` on each encoded chunk in turn: a tokio mpsc send fails
(returning the undelivered value) exactly when the channel is closed, i.e.
when the writer task has dropped the receiver. -/
def sendChunks (chOpen : Bool) : List (List Nat) → Except (List Nat) Unit
  | [] => .ok ()
  | c :: cs => if chOpen then sendChunks chOpen cs else .error c

/-- `WebSocket::send_data` (the body of `send_text`/`send_bytes`): encode
the payload and enqueue every chunk on the data channel.  The source never
reads the `closing` flag here; the result depends only on whether the data
channel is still open. -/
def sendData (chOpen _closing : Bool) (client : Bool) (keys : Nat → List Nat)
    (deflater : Option (List Nat → List Nat)) (op : Opcode)
    (bytes : List Nat) : Except (List Nat) Unit :=
  sendChunks chOpen (dataFrameEncode client keys op deflater bytes)

/-! ## Helper lemmas -/

theorem splitTo_exact (n : Nat) (pre suf : List Nat) (h : pre.length = n) :
    splitTo n (pre ++ suf) = some (pre, suf) := by
  subst h
  simp [splitTo, List.take_left, List.drop_left]

theorem splitTo_one (a : Nat) (l : List Nat) : splitTo 1 (a :: l) = some ([a], l) := by
  simp [splitTo]

theorem splitTo_parts (n : Nat) (l pre suf : List Nat)
    (h : splitTo n l = some (pre, suf)) :
    pre = l.take n ∧ suf = l.drop n ∧ n ≤ l.length := by
  unfold splitTo at h
  split at h
  · cases h
    exact ⟨rfl, rfl, by assumption⟩
  · cases h

theorem maskFrom_length (key l : List Nat) : ∀ i, (maskFrom key i l).length = l.length := by
  induction l with
  | nil => intro i; rfl
  | cons b rest ih => intro i; simp [maskFrom, ih]

theorem maskBytes_length (key l : List Nat) : (maskBytes key l).length = l.length :=
  maskFrom_length key l 0

theorem maskFrom_involutive (key l : List Nat) :
    ∀ i, maskFrom key i (maskFrom key i l) = l := by
  induction l with
  | nil => intro i; rfl
  | cons b rest ih =>
    intro i
    simp [maskFrom, ih, Nat.xor_assoc]

theorem maskBytes_involutive (key l : List Nat) :
    maskBytes key (maskBytes key l) = l :=
  maskFrom_involutive key l 0

/-! ## Per-state decoder lemmas -/

theorem stepPayload_spec (d : FrameDecoder) :
    (stepPayload d).2 ≠ NextFrameResult.panicked ∧
      (stepPayload d).1.buf.length ≤ d.buf.length := by
  unfold stepPayload
  by_cases h1 : d.buf.length < d.ctx.payloadLen
  · simp [h1]
  · have hsplit : splitTo d.ctx.payloadLen d.buf =
        some (d.buf.take d.ctx.payloadLen, d.buf.drop d.ctx.payloadLen) := by
      unfold splitTo
      rw [if_pos (by omega)]
    rw [if_neg h1]
    by_cases h2 : d.ctx.payloadLen > MAX_FRAME_PAYLOAD
    · simp [h2]
    · rw [if_neg h2, hsplit]
      dsimp only
      split <;> split <;> constructor <;> simp [List.length_drop]

theorem stepMask_spec (d : FrameDecoder) :
    (stepMask d).2 ≠ NextFrameResult.panicked ∧
      (stepMask d).1.buf.length ≤ d.buf.length := by
  unfold stepMask
  cases hsplit : splitTo 4 d.buf with
  | none => simp
  | some kr =>
    obtain ⟨k, rest⟩ := kr
    obtain ⟨-, hsuf, -⟩ := splitTo_parts _ _ _ _ hsplit
    have h := stepPayload_spec
      { d with buf := rest, state := .payload, ctx := { d.ctx with maskKey := k } }
    exact ⟨h.1, le_trans h.2 (by simp [hsuf, List.length_drop])⟩

theorem stepExtendedLen_spec (d : FrameDecoder) :
    (stepExtendedLen d).2 ≠ NextFrameResult.panicked ∧
      (stepExtendedLen d).1.buf.length ≤ d.buf.length := by
  unfold stepExtendedLen
  split
  · cases hsplit : splitTo 2 d.buf with
    | none => simp
    | some kr =>
      obtain ⟨lenBytes, rest⟩ := kr
      obtain ⟨-, hsuf, -⟩ := splitTo_parts _ _ _ _ hsplit
      have hlen : rest.length ≤ d.buf.length := by simp [hsuf, List.length_drop]
      dsimp only
      split
      · exact ⟨(stepMask_spec _).1, le_trans (stepMask_spec _).2 hlen⟩
      · exact ⟨(stepPayload_spec _).1, le_trans (stepPayload_spec _).2 hlen⟩
  · cases hsplit : splitTo 8 d.buf with
    | none => simp
    | some kr =>
      obtain ⟨lenBytes, rest⟩ := kr
      obtain ⟨-, hsuf, -⟩ := splitTo_parts _ _ _ _ hsplit
      have hlen : rest.length ≤ d.buf.length := by simp [hsuf, List.length_drop]
      dsimp only
      split
      · exact ⟨(stepMask_spec _).1, le_trans (stepMask_spec _).2 hlen⟩
      · exact ⟨(stepPayload_spec _).1, le_trans (stepPayload_spec _).2 hlen⟩

theorem stepHeader2_spec (d : FrameDecoder) :
    (stepHeader2 d).2 ≠ NextFrameResult.panicked ∧
      (stepHeader2 d).1.buf.length ≤ d.buf.length := by
  unfold stepHeader2
  by_cases hne : d.buf.isEmpty
  · simp [hne]
  · rw [if_neg (by simpa using hne)]
    cases hsplit : splitTo 1 d.buf with
    | none =>
      obtain ⟨b, rest, hb⟩ : ∃ b rest, d.buf = b :: rest := by
        cases hb : d.buf with
        | nil => rw [hb] at hne; simp at hne
        | cons x xs => exact ⟨x, xs, rfl⟩
      rw [hb, splitTo_one] at hsplit
      cases hsplit
    | some kr =>
      obtain ⟨bs, rest⟩ := kr
      obtain ⟨-, hsuf, -⟩ := splitTo_parts _ _ _ _ hsplit
      have hlen : rest.length ≤ d.buf.length := by simp [hsuf, List.length_drop]
      dsimp only
      split
      · exact ⟨by simp, hlen⟩
      · split
        · exact ⟨by simp, hlen⟩
        · split
          · exact ⟨(stepExtendedLen_spec _).1, le_trans (stepExtendedLen_spec _).2 hlen⟩
          · split
            · exact ⟨(stepMask_spec _).1, le_trans (stepMask_spec _).2 hlen⟩
            · exact ⟨(stepPayload_spec _).1, le_trans (stepPayload_spec _).2 hlen⟩

theorem stepHeader1_spec (d : FrameDecoder) :
    (stepHeader1 d).2 ≠ NextFrameResult.panicked ∧
      (stepHeader1 d).1.buf.length ≤ d.buf.length := by
  unfold stepHeader1
  by_cases hne : d.buf.isEmpty
  · simp [hne]
  · rw [if_neg (by simpa using hne)]
    cases hsplit : splitTo 1 d.buf with
    | none =>
      obtain ⟨b, rest, hb⟩ : ∃ b rest, d.buf = b :: rest := by
        cases hb : d.buf with
        | nil => rw [hb] at hne; simp at hne
        | cons x xs => exact ⟨x, xs, rfl⟩
      rw [hb, splitTo_one] at hsplit
      cases hsplit
    | some kr =>
      obtain ⟨bs, rest⟩ := kr
      obtain ⟨-, hsuf, -⟩ := splitTo_parts _ _ _ _ hsplit
      have hlen : rest.length ≤ d.buf.length := by simp [hsuf, List.length_drop]
      dsimp only
      split
      · exact ⟨by simp, hlen⟩
      · split
        · exact ⟨by simp, hlen⟩
        · exact ⟨(stepHeader2_spec _).1, le_trans (stepHeader2_spec _).2 hlen⟩

/-! ## Claim C4: next_frame never panics -/

/-- C4: every `next_frame` call, from any decoder state and buffer,
returns one of Complete / Incomplete / no result (`Ok(None)`) /
Proto / Size — never the panic marker — and consumes bytes only from the
(finite) buffer: the remaining buffer never grows. -/
theorem c4_next_frame_no_panic (d : FrameDecoder) :
    (nextFrame d).2 ≠ NextFrameResult.panicked ∧
      (nextFrame d).1.buf.length ≤ d.buf.length := by
  unfold nextFrame
  split
  · exact stepHeader1_spec d
  · exact stepHeader2_spec d
  · exact stepExtendedLen_spec d
  · exact stepMask_spec d
  · exact stepPayload_spec d

/-! ## Claim C9: invariants of completed frames -/

theorem stepPayload_complete (d d2 : FrameDecoder) (f : DecodedFrame)
    (h : stepPayload d = (d2, NextFrameResult.complete f)) :
    f.payload.length ≤ MAX_FRAME_PAYLOAD ∧
    (f.opcode = Opcode.close → isValidClosePayload f.payload = true) := by
  unfold stepPayload at h
  by_cases h1 : d.buf.length < d.ctx.payloadLen
  · simp [h1] at h
  · rw [if_neg h1] at h
    by_cases h2 : d.ctx.payloadLen > MAX_FRAME_PAYLOAD
    · simp [h2] at h
    · rw [if_neg h2] at h
      have hsplit : splitTo d.ctx.payloadLen d.buf =
          some (d.buf.take d.ctx.payloadLen, d.buf.drop d.ctx.payloadLen) := by
        unfold splitTo
        rw [if_pos (by omega)]
      rw [hsplit] at h
      have hplen : (if d.server = true then
          maskBytes d.ctx.maskKey (List.take d.ctx.payloadLen d.buf)
          else List.take d.ctx.payloadLen d.buf).length = d.ctx.payloadLen := by
        split <;> simp [maskBytes_length, List.length_take] <;> omega
      dsimp only at h
      generalize hgen : (if d.server = true then
          maskBytes d.ctx.maskKey (List.take d.ctx.payloadLen d.buf)
          else List.take d.ctx.payloadLen d.buf) = pl at h hplen
      split at h
      · simp at h
      · next hvalid =>
        have hf := congrArg Prod.snd h
        dsimp at hf
        cases hf
        constructor
        · simp only [hplen]
          omega
        · intro hclose
          exact (by simpa using hvalid : d.ctx.opcode = Opcode.close →
            isValidClosePayload pl = true) hclose

theorem stepMask_complete (d d2 : FrameDecoder) (f : DecodedFrame)
    (h : stepMask d = (d2, NextFrameResult.complete f)) :
    f.payload.length ≤ MAX_FRAME_PAYLOAD ∧
    (f.opcode = Opcode.close → isValidClosePayload f.payload = true) := by
  unfold stepMask at h
  cases hsplit : splitTo 4 d.buf with
  | none => rw [hsplit] at h; simp at h
  | some kr =>
    rw [hsplit] at h
    exact stepPayload_complete _ _ _ h

theorem stepExtendedLen_complete (d d2 : FrameDecoder) (f : DecodedFrame)
    (h : stepExtendedLen d = (d2, NextFrameResult.complete f)) :
    f.payload.length ≤ MAX_FRAME_PAYLOAD ∧
    (f.opcode = Opcode.close → isValidClosePayload f.payload = true) := by
  unfold stepExtendedLen at h
  split at h <;>
    [cases hsplit : splitTo 2 d.buf; cases hsplit : splitTo 8 d.buf] <;>
      rw [hsplit] at h
  case' isTrue.none => simp at h
  case' isFalse.none => simp at h
  all_goals
    dsimp only at h
    split at h
    · exact stepMask_complete _ _ _ h
    · exact stepPayload_complete _ _ _ h

theorem stepHeader2_complete (d d2 : FrameDecoder) (f : DecodedFrame)
    (h : stepHeader2 d = (d2, NextFrameResult.complete f)) :
    f.payload.length ≤ MAX_FRAME_PAYLOAD ∧
    (f.opcode = Opcode.close → isValidClosePayload f.payload = true) := by
  unfold stepHeader2 at h
  split at h
  · simp at h
  · cases hsplit : splitTo 1 d.buf with
    | none => rw [hsplit] at h; simp at h
    | some kr =>
      rw [hsplit] at h
      dsimp only at h
      split at h
      · simp at h
      · split at h
        · simp at h
        · split at h
          · exact stepExtendedLen_complete _ _ _ h
          · split at h
            · exact stepMask_complete _ _ _ h
            · exact stepPayload_complete _ _ _ h

theorem stepHeader1_complete (d d2 : FrameDecoder) (f : DecodedFrame)
    (h : stepHeader1 d = (d2, NextFrameResult.complete f)) :
    f.payload.length ≤ MAX_FRAME_PAYLOAD ∧
    (f.opcode = Opcode.close → isValidClosePayload f.payload = true) := by
  unfold stepHeader1 at h
  split at h
  · simp at h
  · cases hsplit : splitTo 1 d.buf with
    | none => rw [hsplit] at h; simp at h
    | some kr =>
      rw [hsplit] at h
      dsimp only at h
      split at h
      · simp at h
      · split at h
        · simp at h
        · exact stepHeader2_complete _ _ _ h

theorem closePayload_shape (p : List Nat) (h : isValidClosePayload p = true) :
    p = [] ∨ (2 ≤ p.length ∧
      ((1000 ≤ p.getD 0 0 * 256 + p.getD 1 0 ∧ p.getD 0 0 * 256 + p.getD 1 0 ≤ 1011) ∨
        (3000 ≤ p.getD 0 0 * 256 + p.getD 1 0 ∧ p.getD 0 0 * 256 + p.getD 1 0 ≤ 4999)) ∧
      utf8Valid (p.drop 2) = true) := by
  match p with
  | [] => exact Or.inl rfl
  | [x] => simp [isValidClosePayload] at h
  | b0 :: b1 :: rest =>
    right
    simp only [isValidClosePayload, Bool.and_eq_true, Bool.or_eq_true,
      decide_eq_true_eq] at h
    refine ⟨by simp, ?_, h.2⟩
    simpa using h.1

/-- C9: every frame emitted as `FrameState::Complete` has payload length at
most `MAX_FRAME_PAYLOAD`; when its opcode is Close the payload satisfies
`is_valid_close_payload` — it is empty, or at least 2 bytes whose leading
big-endian code lies in `1000..=1011 ∪ 3000..=4999` with a valid UTF-8
remainder — so in particular a 1-byte Close payload is never emitted and
indexing bytes 0 and 1 of a non-empty Close payload cannot fail. -/
theorem c9_complete_frame_invariant (d d2 : FrameDecoder) (f : DecodedFrame)
    (h : nextFrame d = (d2, NextFrameResult.complete f)) :
    f.payload.length ≤ MAX_FRAME_PAYLOAD ∧
    (f.opcode = Opcode.close → isValidClosePayload f.payload = true) ∧
    (f.opcode = Opcode.close → f.payload ≠ [] →
      2 ≤ f.payload.length ∧
      ((1000 ≤ f.payload.getD 0 0 * 256 + f.payload.getD 1 0 ∧
          f.payload.getD 0 0 * 256 + f.payload.getD 1 0 ≤ 1011) ∨
        (3000 ≤ f.payload.getD 0 0 * 256 + f.payload.getD 1 0 ∧
          f.payload.getD 0 0 * 256 + f.payload.getD 1 0 ≤ 4999)) ∧
      utf8Valid (f.payload.drop 2) = true) := by
  have hmain : f.payload.length ≤ MAX_FRAME_PAYLOAD ∧
      (f.opcode = Opcode.close → isValidClosePayload f.payload = true) := by
    unfold nextFrame at h
    split at h
    · exact stepHeader1_complete _ _ _ h
    · exact stepHeader2_complete _ _ _ h
    · exact stepExtendedLen_complete _ _ _ h
    · exact stepMask_complete _ _ _ h
    · exact stepPayload_complete _ _ _ h
  refine ⟨hmain.1, hmain.2, ?_⟩
  intro hclose hne
  rcases closePayload_shape _ (hmain.2 hclose) with hnil | hshape
  · exact absurd hnil hne
  · exact hshape

/-- C9 witness: decoding the well-formed Close frame `88 02 03 E8`
(code 1000, empty reason) emits a Complete Close frame, and the theorem's
invariants hold for it. -/
theorem c9_complete_frame_invariant_witness :
    (DecodedFrame.mk Opcode.close [3, 232] true false).payload.length ≤ MAX_FRAME_PAYLOAD ∧
    (Opcode.close = Opcode.close →
      isValidClosePayload (DecodedFrame.mk Opcode.close [3, 232] true false).payload = true) ∧
    (Opcode.close = Opcode.close →
      (DecodedFrame.mk Opcode.close [3, 232] true false).payload ≠ [] →
      2 ≤ (DecodedFrame.mk Opcode.close [3, 232] true false).payload.length ∧
      ((1000 ≤ (DecodedFrame.mk Opcode.close [3, 232] true false).payload.getD 0 0 * 256 +
          (DecodedFrame.mk Opcode.close [3, 232] true false).payload.getD 1 0 ∧
        (DecodedFrame.mk Opcode.close [3, 232] true false).payload.getD 0 0 * 256 +
          (DecodedFrame.mk Opcode.close [3, 232] true false).payload.getD 1 0 ≤ 1011) ∨
       (3000 ≤ (DecodedFrame.mk Opcode.close [3, 232] true false).payload.getD 0 0 * 256 +
          (DecodedFrame.mk Opcode.close [3, 232] true false).payload.getD 1 0 ∧
        (DecodedFrame.mk Opcode.close [3, 232] true false).payload.getD 0 0 * 256 +
          (DecodedFrame.mk Opcode.close [3, 232] true false).payload.getD 1 0 ≤ 4999)) ∧
      utf8Valid ((DecodedFrame.mk Opcode.close [3, 232] true false).payload.drop 2) = true) :=
  c9_complete_frame_invariant (FrameDecoder.new false false [0x88, 0x02, 0x03, 0xE8])
    { server := false, buf := [], state := DecodeState.header1,
      ctx := { isFin := true, opcode := Opcode.close, payloadLen := 2,
               maskKey := [0, 0, 0, 0], compressed := false },
      compressed := false }
    (DecodedFrame.mk Opcode.close [3, 232] true false) (by decide)

/-! ## Claim C3: oversized declared frame length -/

/-- C3 counterexample: a complete frame header declaring a 17 MiB payload
(`82 7F` + 8 length bytes), with no payload bytes yet buffered, makes
`next_frame` return `Incomplete`, not the claimed `Size` error: the
`MAX_FRAME_PAYLOAD` check lives in `parse_payload`, after the
`buf.len() < payload_len` early return. -/
theorem c3_counterexample :
    (nextFrame (FrameDecoder.new false false ([0x82, 127] ++ be8 (17 * 1024 * 1024)))).2 =
        NextFrameResult.incomplete ∧
    (nextFrame (FrameDecoder.new false false ([0x82, 127] ++ be8 (17 * 1024 * 1024)))).2 ≠
        NextFrameResult.sizeErr := by decide

/-- C3 (amended): for a frame header declaring a 17 MiB payload the decoder
only reports the Size error once the declared number of payload bytes has
been buffered (the `MAX_FRAME_PAYLOAD` check is made in `parse_payload`
after the availability check); until then each call returns `Incomplete`.
When the error fires the buffered input is discarded and no frame is
emitted for it. -/
theorem c3_oversize_size_error (rest : List Nat) :
    (rest.length < 17 * 1024 * 1024 →
      nextFrame (FrameDecoder.new false false (([0x82, 127] ++ be8 (17 * 1024 * 1024)) ++ rest)) =
        ({ server := false, buf := rest, state := .payload,
           ctx := { isFin := true, opcode := .bin, payloadLen := 17 * 1024 * 1024,
                    maskKey := [0, 0, 0, 0], compressed := false }, compressed := false },
         .incomplete)) ∧
    (17 * 1024 * 1024 ≤ rest.length →
      nextFrame (FrameDecoder.new false false (([0x82, 127] ++ be8 (17 * 1024 * 1024)) ++ rest)) =
        ({ server := false, buf := [], state := .header1,
           ctx := { isFin := true, opcode := .bin, payloadLen := 17 * 1024 * 1024,
                    maskKey := [0, 0, 0, 0], compressed := false }, compressed := false },
         .sizeErr)) := by
  have hbe : be8 (17 * 1024 * 1024) = [0, 0, 0, 0, 1, 16, 0, 0] := by norm_num [be8]
  rw [hbe]
  constructor
  · intro hlt
    simp +decide [nextFrame, FrameDecoder.new, stepHeader1, splitTo_one, stepHeader2,
          stepExtendedLen, stepPayload, splitTo, fromBe8, MAX_FRAME_PAYLOAD, hlt,
          Opcode.tryFrom, Opcode.isControl]
  · intro hge
    have hlt : ¬ (rest.length < 17 * 1024 * 1024) := by omega
    simp +decide [nextFrame, FrameDecoder.new, stepHeader1, splitTo_one, stepHeader2,
          stepExtendedLen, stepPayload, splitTo, fromBe8, MAX_FRAME_PAYLOAD, hlt,
          Opcode.tryFrom, Opcode.isControl]

/-- C3 witness: with no payload bytes buffered yet, the oversized header
yields `Incomplete` with the (empty) remainder intact. -/
theorem c3_oversize_size_error_witness :
    nextFrame (FrameDecoder.new false false (([0x82, 127] ++ be8 (17 * 1024 * 1024)) ++ [])) =
      ({ server := false, buf := [], state := .payload,
         ctx := { isFin := true, opcode := .bin, payloadLen := 17 * 1024 * 1024,
                  maskKey := [0, 0, 0, 0], compressed := false }, compressed := false },
       .incomplete) :=
  (c3_oversize_size_error []).1 (by decide)

/-! ## Claim C2: peer-initiated close handling -/

/-- C2: a peer Close frame with an empty payload is accepted by the decoder
as well-formed, yet `handle_close` panics on it: the slice
`&frame.payload[2..]` is evaluated before any length check, and indexing an
empty payload from 2 is out of range.  The claimed echo of a `Normal` Close
(which the function's own comment promises for the empty payload) is never
reached, so the claim fails on the code. -/
theorem c2_handle_close_empty_panics :
    isValidClosePayload [] = true ∧ handleClose false [] = none := by decide

/-! ## Claim C5: keepalive timeout vs. processed Pong -/

/-- C5: with `interval_secs = 30`, a tick at time 0 with an idle peer sends
a Ping and records `ping_sent = Some(0)`; a matching Pong is then fully
processed by `handle_pong` (the `Pong 40` event is emitted); yet the tick
at time 60 still initiates Close(1008 Policy, "ping timed out"), because
`ping_sent` is local to the keepalive task and nothing ever clears it.
This refutes the claim that no such Close is initiated once the matching
Pong has been processed. -/
theorem c5_ping_timeout_despite_pong :
    pingLoopTick 30 false 30 0 none = (some 0, [PingAction.sendPing]) ∧
    (handlePong (PingStats.init 0) 40 (List.replicate 8 0)).events = [WsEvent.pong 40] ∧
    pingLoopTick 30 false 5 60 (some 0) =
      (some 0, [PingAction.sendClose CloseReason.policy]) := by decide

/-! ## Claim C6: Pong events and measured latency -/

/-- C6 counterexample: for a Pong matching the outstanding nonce whose
elapsed time is 65536 ms, the engine emits no Pong event at all (it closes
with Policy/1008 instead), contradicting the claimed clamped
`Pong(65535)`. -/
theorem c6_counterexample :
    (handlePong (PingStats.init 0) 65536 (List.replicate 8 0)).events = [] ∧
    (handlePong (PingStats.init 0) 65536 (List.replicate 8 0)).events ≠
      [WsEvent.pong 65535] ∧
    (handlePong (PingStats.init 0) 65536 (List.replicate 8 0)).closes =
      [CloseReason.policy] := by decide

/-- C6 (amended): a Pong with an 8-byte payload equal to the outstanding
nonce emits `Pong(elapsed)` when the elapsed time fits `u16`; when it does
not, no Pong event is emitted and a Close with code 1008 (Policy) is sent;
a Pong whose payload is not 8 bytes or does not match the nonce emits no
Pong event. -/
theorem c6_pong_events (stats : PingStats) (now : Nat) (payload : List Nat) :
    (payload.length = 8 → payload = stats.lastNonce → now - stats.lastPing ≤ 65535 →
      (handlePong stats now payload).events = [WsEvent.pong (now - stats.lastPing)]) ∧
    (payload.length = 8 → payload = stats.lastNonce → 65535 < now - stats.lastPing →
      (handlePong stats now payload).events = [] ∧
      (handlePong stats now payload).closes = [CloseReason.policy]) ∧
    (payload.length ≠ 8 ∨ payload ≠ stats.lastNonce →
      (handlePong stats now payload).events = []) := by
  refine ⟨?_, ?_, ?_⟩
  · intro h8 hm hle
    subst hm
    simp [handlePong, h8, PingStats.onPong, hle]
  · intro h8 hm hgt
    subst hm
    have hle : ¬ (now - stats.lastPing ≤ 65535) := by omega
    simp [handlePong, h8, PingStats.onPong, hle]
  · intro h
    rcases h with h | h
    · simp [handlePong, h]
    · by_cases h8 : payload.length = 8
      · simp [handlePong, h8, PingStats.onPong, h]
      · simp [handlePong, h8]

/-- C6 witness: a timely matching Pong (10 ms) yields the `Pong 10` event. -/
theorem c6_pong_events_witness :
    (handlePong (PingStats.init 0) 10 (List.replicate 8 0)).events = [WsEvent.pong 10] := by
  have h := (c6_pong_events (PingStats.init 0) 10 (List.replicate 8 0)).1
    (by decide) (by decide) (by decide)
  simpa using h

/-! ## Claim C7: the RTT average -/

/-- C7: `average()` is claimed to be the arithmetic mean of the populated
slots for all populated values.  The accumulator is a `u16`, so with two
slots of 40000 ms the sum wraps (a debug build panics on the overflowing
`+=` instead) and the reported average is 7232, not the true mean 40000. -/
theorem c7_average_overflow :
    PingStats.average { history := [some 40000, some 40000, none, none, none],
                        idx := 2, lastNonce := List.replicate 8 0, lastPing := 0 } =
      some 7232 ∧
    (40000 + 40000) / 2 = 40000 := by decide

/-! ## Claim C10: error atomicity of on_pong -/

/-- C10: `on_pong` returning an error (nonce mismatch, or a matching nonce
whose elapsed time exceeds `u16`) leaves the whole `PingStats` unchanged;
only a matching, timely pong writes the ring, via `add`. -/
theorem c10_on_pong_atomic (s : PingStats) (nonce : List Nat) (now : Nat) :
    (∀ e, (s.onPong nonce now).2 = Except.error e → (s.onPong nonce now).1 = s) ∧
    (∀ l, (s.onPong nonce now).2 = Except.ok l →
      l = now - s.lastPing ∧ (s.onPong nonce now).1 = s.add (now - s.lastPing)) := by
  by_cases hn : nonce = s.lastNonce <;>
    by_cases hle : now - s.lastPing ≤ 65535 <;>
      constructor <;>
        simp [PingStats.onPong, hn, hle]

/-- C10 witness: a mismatched nonce leaves the stats unchanged. -/
theorem c10_on_pong_atomic_witness :
    ((PingStats.init 0).onPong (List.replicate 8 1) 5).1 = PingStats.init 0 :=
  (c10_on_pong_atomic (PingStats.init 0) (List.replicate 8 1) 5).1
    (PongError.nonce (List.replicate 8 0)) (by rfl)

/-! ## Claim C8: send failure conditions -/

/-- C8 counterexample: with the data channel still open (the writer task
has not yet consumed the enqueued close frame) and the `closing` flag
already set, `send_data` succeeds — the source never consults `closing` —
refuting the claim that sends fail whenever the connection is closing. -/
theorem c8_counterexample :
    sendData true true false (fun _ => [0, 0, 0, 0]) none Opcode.text [104, 105] =
      Except.ok () := by rfl

/-- C8 (amended): `send_text`/`send_bytes` fail, returning the undelivered
frame bytes, exactly when the data channel is closed (the writer task has
terminated, e.g. after the peer dropped or a close was processed); the
`closing` flag itself is not consulted, so a send issued after `close()`
but before the writer processes the close frame still succeeds. -/
theorem c8_send_data_channel (chOpen closing client : Bool) (keys : Nat → List Nat)
    (deflater : Option (List Nat → List Nat)) (op : Opcode) (bytes : List Nat) :
    (chOpen = true → sendData chOpen closing client keys deflater op bytes = Except.ok ()) ∧
    (chOpen = false → ∃ c, sendData chOpen closing client keys deflater op bytes =
      Except.error c) := by
  constructor
  · intro h
    subst h
    unfold sendData
    generalize dataFrameEncode client keys op deflater bytes = chunks
    induction chunks with
    | nil => rfl
    | cons c cs ih => simpa [sendChunks] using ih
  · intro h
    subst h
    unfold sendData dataFrameEncode allFrames
    cases deflater <;>
      cases hsplit : (chunksExact MAX_FRAME_PAYLOAD bytes).1 <;>
        simp [allFramesGo, sendChunks]
    any_goals cases hsplit2 : (chunksExact MAX_FRAME_PAYLOAD _).1 <;> simp [allFramesGo, sendChunks]

/-- C8 witness: a send on a closed channel fails with the first frame
undelivered. -/
theorem c8_send_data_channel_witness :
    ∃ c, sendData false true false (fun _ => [0, 0, 0, 0]) none Opcode.text [104, 105] =
      Except.error c :=
  (c8_send_data_channel false true false (fun _ => [0, 0, 0, 0]) none Opcode.text
    [104, 105]).2 rfl

/-! ## Claim C1: encoder-decoder round trip.  Bit-level helper lemmas. -/

theorem or128_and127 (m : Nat) (h : m < 128) : (m ||| 128) &&& 127 = m := by
  have hall : ∀ k, k < 128 → (k ||| 128) &&& 127 = k := by decide
  exact hall m h

theorem or128_and128 (m : Nat) (h : m < 128) : (m ||| 128) &&& 128 = 128 := by
  have hall : ∀ k, k < 128 → (k ||| 128) &&& 128 = 128 := by decide
  exact hall m h

theorem and127_self (m : Nat) (h : m < 128) : m &&& 127 = m := by
  have hall : ∀ k, k < 128 → k &&& 127 = k := by decide
  exact hall m h

theorem and128_zero (m : Nat) (h : m < 128) : m &&& 128 = 0 := by
  have hall : ∀ k, k < 128 → k &&& 128 = 0 := by decide
  exact hall m h

theorem b1_facts (op : Opcode) (first last compressed : Bool) :
    ∀ b1, b1 = ((if first then op.val else Opcode.cont.val) |||
        (if last then 0x80 else 0) ||| (if first && compressed then 0x40 else 0)) →
      b1 &&& 0x30 = 0 ∧ decide (b1 &&& 0x40 > 0) = (first && compressed) ∧
      Opcode.tryFrom (b1 &&& 0xF) = some (if first then op else Opcode.cont) ∧
      decide (b1 &&& 0x80 > 0) = last := by
  intro b1 hb
  subst hb
  cases op <;> cases first <;> cases last <;> cases compressed <;> decide

theorem fromBe2_be2 (m : Nat) (h : m < 65536) : fromBe2 (be2 m) = m := by
  simp only [fromBe2, be2, List.getD]
  simp
  omega

theorem be2_length (m : Nat) : (be2 m).length = 2 := rfl

/-- Decoding one data-frame header byte: from `Header1` with the encoder's
first byte at the head of the buffer, the decoder proceeds to `Header2`
with the per-frame context holding the frame's fin / opcode / RSV1 data. -/
theorem stepHeader1_cons (server dcomp : Bool) (tail : List Nat)
    (ctx0 : DecodeContext) (op : Opcode) (first last compressed : Bool)
    (hcomp : (first && compressed) = true → dcomp = true) :
    stepHeader1 { server := server,
                  buf := ((if first then op.val else Opcode.cont.val) |||
                    (if last then 0x80 else 0) |||
                    (if first && compressed then 0x40 else 0)) :: tail,
                  state := .header1, ctx := ctx0, compressed := dcomp } =
      stepHeader2 { server := server, buf := tail, state := .header2,
                    ctx := { isFin := last, opcode := if first then op else Opcode.cont,
                             payloadLen := 0, maskKey := [0, 0, 0, 0],
                             compressed := first && compressed },
                    compressed := dcomp } := by
  obtain ⟨h30, h40, htf, h80⟩ := b1_facts op first last compressed _ rfl
  unfold stepHeader1
  rw [if_neg (by simp)]
  rw [splitTo_one]
  dsimp only [List.getD_cons_zero]
  rw [h30, h40, htf, h80]
  have hcond : (decide (0 > 0) || ((first && compressed) && !dcomp)) = false := by
    cases hfc : first && compressed
    · simp
    · simp [hcomp hfc]
  rw [hcond]
  simp

/-- Decoding the payload state when exactly the declared bytes (and more)
are buffered and the frame is not a Close frame. -/
theorem stepPayload_exact (server dcomp : Bool) (pb rest : List Nat)
    (ctx : DecodeContext) (hlen : ctx.payloadLen = pb.length)
    (hmax : pb.length ≤ MAX_FRAME_PAYLOAD)
    (hclose : ctx.opcode ≠ Opcode.close) :
    stepPayload { server := server, buf := pb ++ rest, state := .payload,
                  ctx := ctx, compressed := dcomp } =
      ({ server := server, buf := rest, state := .header1, ctx := ctx,
         compressed := dcomp },
       .complete { opcode := ctx.opcode,
                   payload := if server then maskBytes ctx.maskKey pb else pb,
                   isFin := ctx.isFin, compressed := ctx.compressed }) := by
  unfold stepPayload
  rw [if_neg (by simp [hlen])]
  rw [if_neg (by simp [hlen]; omega)]
  rw [hlen, splitTo_exact _ pb rest rfl]
  dsimp only
  rw [if_neg (by simp [hclose])]

/-- Decoding the mask state when the 4-byte key heads the buffer. -/
theorem stepMask_exact (server dcomp : Bool) (key tail : List Nat)
    (ctx : DecodeContext) (hkey : key.length = 4) :
    stepMask { server := server, buf := key ++ tail, state := .mask,
               ctx := ctx, compressed := dcomp } =
      stepPayload { server := server, buf := tail, state := .payload,
                    ctx := { ctx with maskKey := key }, compressed := dcomp } := by
  unfold stepMask
  rw [splitTo_exact 4 key tail hkey]

/-- Decoding the 2-byte extended length. -/
theorem stepExtendedLen_two (server dcomp : Bool) (m : Nat) (tail : List Nat)
    (ctx : DecodeContext) (h126 : ctx.payloadLen = 126) (hlt : m < 65536) :
    stepExtendedLen { server := server, buf := be2 m ++ tail,
                      state := .extendedLen, ctx := ctx, compressed := dcomp } =
      if server then
        stepMask { server := server, buf := tail, state := .mask,
                   ctx := { ctx with payloadLen := m }, compressed := dcomp }
      else
        stepPayload { server := server, buf := tail, state := .payload,
                      ctx := { ctx with payloadLen := m }, compressed := dcomp } := by
  unfold stepExtendedLen
  rw [if_pos (by simpa using h126), splitTo_exact 2 (be2 m) tail (be2_length m)]
  dsimp only
  rw [fromBe2_be2 m hlt]

/-- Decoding the second header byte, whose low 7 bits are `m < 128` and
whose MASK bit agrees with the decoder role. -/
theorem stepHeader2_lenHead (server dcomp : Bool) (m : Nat) (tail : List Nat)
    (ctx : DecodeContext) (hm : m < 128) (hctrl : ctx.opcode.isControl = false) :
    stepHeader2 { server := server,
                  buf := (if server then m ||| 128 else m) :: tail,
                  state := .header2, ctx := ctx, compressed := dcomp } =
      (if m > 125 then
        stepExtendedLen { server := server, buf := tail, state := .extendedLen,
                          ctx := { ctx with payloadLen := m }, compressed := dcomp }
      else if server then
        stepMask { server := server, buf := tail, state := .mask,
                   ctx := { ctx with payloadLen := m }, compressed := dcomp }
      else
        stepPayload { server := server, buf := tail, state := .payload,
                      ctx := { ctx with payloadLen := m }, compressed := dcomp }) := by
  unfold stepHeader2
  rw [if_neg (by simp)]
  rw [splitTo_one]
  dsimp only [List.getD_cons_zero]
  have hmasked : decide ((if server then m ||| 128 else m) &&& 128 > 0) = server := by
    cases server
    · simp [and128_zero m hm]
    · simp [or128_and128 m hm]
  have hlow : (if server then m ||| 128 else m) &&& 127 = m := by
    cases server
    · simp [and127_self m hm]
    · simp [or128_and127 m hm]
  rw [hmasked, hlow]
  rw [if_neg (by simp)]
  rw [if_neg (by simp [hctrl])]

/-- Decoding everything after the first header byte of an encoded data
frame: the length bytes (MASK bit set for the masking role), the mask key
and masked payload for a client encoder, or the bare payload for a server
encoder, yields the chunk as a completed frame and leaves `rest`
buffered. -/
theorem frameTail_decodes (server dcomp : Bool) (key chunk rest : List Nat)
    (ctx : DecodeContext) (hkey : key.length = 4)
    (hchunk : chunk.length ≤ MAX_FRAME_PAYLOAD)
    (hctrl : ctx.opcode.isControl = false)
    (hclose : ctx.opcode ≠ Opcode.close) :
    stepHeader2 { server := server,
                  buf := (if server then setMaskBit (lenBytes chunk.length)
                      else lenBytes chunk.length) ++
                    ((if server then key else []) ++
                      ((if server then maskBytes key chunk else chunk) ++ rest)),
                  state := .header2, ctx := ctx, compressed := dcomp } =
      ({ server := server, buf := rest, state := .header1,
         ctx := { ctx with payloadLen := chunk.length, maskKey := if server then key else ctx.maskKey },
         compressed := dcomp },
       .complete { opcode := ctx.opcode, payload := chunk,
                   isFin := ctx.isFin, compressed := ctx.compressed }) := by
  have hMF : MAX_FRAME_PAYLOAD = 16 * 1024 := rfl
  by_cases hsm : chunk.length ≤ 125
  · -- single length byte
    have hlp : (if server then setMaskBit (lenBytes chunk.length)
        else lenBytes chunk.length) ++
          ((if server then key else []) ++
            ((if server then maskBytes key chunk else chunk) ++ rest)) =
        (if server then chunk.length ||| 128 else chunk.length) ::
          ((if server then key else []) ++
            ((if server then maskBytes key chunk else chunk) ++ rest)) := by
      cases server <;> simp [lenBytes, hsm, setMaskBit]
    rw [hlp, stepHeader2_lenHead server dcomp chunk.length _ ctx (by omega) hctrl]
    rw [if_neg (by omega)]
    cases server
    · simp only [Bool.false_eq_true, reduceIte]
      rw [List.nil_append]
      exact stepPayload_exact false dcomp chunk rest
        { ctx with payloadLen := chunk.length } rfl hchunk hclose
    · simp only [reduceIte]
      rw [stepMask_exact true dcomp key _ _ hkey]
      dsimp only
      rw [stepPayload_exact true dcomp (maskBytes key chunk) rest
        ⟨ctx.isFin, ctx.opcode, chunk.length, key, ctx.compressed⟩
        (by simp [maskBytes_length]) (by simpa [maskBytes_length] using hchunk) hclose]
      simp [maskBytes_involutive]
  · -- 126 marker plus two extended length bytes
    have h65 : chunk.length ≤ 65535 := by rw [hMF] at hchunk; omega
    have hlb : lenBytes chunk.length = 126 :: be2 chunk.length := by
      simp [lenBytes, hsm, h65]
    have hlp : (if server then setMaskBit (lenBytes chunk.length)
        else lenBytes chunk.length) ++
          ((if server then key else []) ++
            ((if server then maskBytes key chunk else chunk) ++ rest)) =
        (if server then 126 ||| 128 else 126) ::
          (be2 chunk.length ++
            ((if server then key else []) ++
              ((if server then maskBytes key chunk else chunk) ++ rest))) := by
      cases server <;> simp [hlb, setMaskBit]
    rw [hlp, stepHeader2_lenHead server dcomp 126 _ ctx (by omega) hctrl]
    rw [if_pos (by omega)]
    rw [stepExtendedLen_two server dcomp chunk.length _ _ rfl (by omega)]
    cases server
    · simp only [Bool.false_eq_true, reduceIte]
      rw [List.nil_append]
      exact stepPayload_exact false dcomp chunk rest
        ⟨ctx.isFin, ctx.opcode, chunk.length, ctx.maskKey, ctx.compressed⟩ rfl hchunk hclose
    · simp only [reduceIte]
      rw [stepMask_exact true dcomp key _ _ hkey]
      dsimp only
      rw [stepPayload_exact true dcomp (maskBytes key chunk) rest
        ⟨ctx.isFin, ctx.opcode, chunk.length, key, ctx.compressed⟩
        (by simp [maskBytes_length]) (by simpa [maskBytes_length] using hchunk) hclose]
      simp [maskBytes_involutive]

/-- Shape of an encoded frame with trailing bytes: first header byte, then
the (possibly MASK-flagged) length bytes, the mask key and masked payload
for a client encoder or the bare payload for a server encoder. -/
theorem singleFrame_append (client : Bool) (key : List Nat) (op : Opcode)
    (first last compressed : Bool) (chunk rest : List Nat) :
    singleFrame client key op first last compressed chunk ++ rest =
      ((if first then op.val else Opcode.cont.val) |||
        (if last then 0x80 else 0) ||| (if first && compressed then 0x40 else 0)) ::
        ((if client then setMaskBit (lenBytes chunk.length) else lenBytes chunk.length) ++
          ((if client then key else []) ++
            ((if client then maskBytes key chunk else chunk) ++ rest))) := by
  cases client <;> simp [singleFrame, List.cons_append, List.append_assoc]

/-- Decoding one whole encoded data frame from the `Header1` state: the
decoder of the opposite role (its `P::SERVER` equals the encoder's
`P::CLIENT`) emits the chunk as a completed frame and leaves the trailing
bytes buffered, back in `Header1`. -/
theorem decode_singleFrame (server dcomp : Bool) (key chunk rest : List Nat)
    (op : Opcode) (first last compressed : Bool) (ctx0 : DecodeContext)
    (hkey : key.length = 4) (hchunk : chunk.length ≤ MAX_FRAME_PAYLOAD)
    (hop : op.isControl = false) (hopc : op ≠ Opcode.close)
    (hcomp : (first && compressed) = true → dcomp = true) :
    nextFrame { server := server,
                buf := singleFrame server key op first last compressed chunk ++ rest,
                state := .header1, ctx := ctx0, compressed := dcomp } =
      ({ server := server, buf := rest, state := .header1,
         ctx := ⟨last, if first then op else Opcode.cont, chunk.length,
                 (if server then key else [0, 0, 0, 0]), first && compressed⟩,
         compressed := dcomp },
       .complete { opcode := if first then op else Opcode.cont, payload := chunk,
                   isFin := last, compressed := first && compressed }) := by
  have hctrl : (if first then op else Opcode.cont).isControl = false := by
    cases first
    · simp [Opcode.isControl]
    · simpa using hop
  have hclose : (if first then op else Opcode.cont) ≠ Opcode.close := by
    cases first
    · simp
    · simpa using hopc
  rw [singleFrame_append]
  unfold nextFrame
  dsimp only
  rw [stepHeader1_cons server dcomp _ ctx0 op first last compressed hcomp]
  exact frameTail_decodes server dcomp key chunk rest _ hkey hchunk hctrl hclose

theorem decodeLoop_succ (fuel : Nat) (d : FrameDecoder) :
    decodeLoop (fuel + 1) d =
      (match nextFrame d with
      | (d2, .complete f) => ((f :: (decodeLoop fuel d2).1), (decodeLoop fuel d2).2)
      | (_, r) => ([], r)) := rfl

theorem decodeLoop_complete (fuel : Nat) (d d2 : FrameDecoder) (f : DecodedFrame)
    (h : nextFrame d = (d2, .complete f)) :
    decodeLoop (fuel + 1) d =
      ((f :: (decodeLoop fuel d2).1), (decodeLoop fuel d2).2) := by
  rw [decodeLoop_succ, h]

theorem decodeLoop_pending (fuel : Nat) (d : FrameDecoder)
    (h : (nextFrame d).2 = .pending) (hf : 1 ≤ fuel) :
    decodeLoop fuel d = ([], .pending) := by
  cases fuel with
  | zero => omega
  | succ fuel2 =>
    rw [decodeLoop_succ]
    have hd : nextFrame d = ((nextFrame d).1, .pending) := by
      rw [← h]
    rw [hd]

theorem decodeLoop_empty (fuel : Nat) (server dcomp : Bool) (ctx : DecodeContext)
    (hf : 1 ≤ fuel) :
    decodeLoop fuel { server := server, buf := [], state := .header1,
                      ctx := ctx, compressed := dcomp } = ([], .pending) :=
  decodeLoop_pending fuel _ (by simp [nextFrame, stepHeader1]) hf

/-- Driving `next_frame` over the concatenation of all encoded frames of a
message yields exactly the expected fragment list followed by `Ok(None)`
(an empty buffer back at `Header1`). -/
theorem decodeLoop_allFramesGo (server dcomp compressed : Bool) (op : Opcode)
    (keys : Nat → List Nat) (hkeys : ∀ j, (keys j).length = 4)
    (hop : op.isControl = false) (hopc : op ≠ Opcode.close)
    (hq : compressed = true → dcomp = true) :
    ∀ (cs : List (List Nat)) (remainder : List Nat) (i : Nat) (first : Bool)
      (ctx0 : DecodeContext),
      (∀ c ∈ cs, c.length ≤ MAX_FRAME_PAYLOAD) →
      remainder.length ≤ MAX_FRAME_PAYLOAD →
      decodeLoop (cs.length + 2)
        { server := server,
          buf := (allFramesGo server keys op compressed cs remainder i first).flatten,
          state := .header1, ctx := ctx0, compressed := dcomp } =
        (expectedFrames op compressed cs remainder first, .pending) := by
  intro cs
  induction cs with
  | nil =>
    intro remainder i first ctx0 hcs hrem
    have hcomp : (first && compressed) = true → dcomp = true := by
      intro h
      rw [Bool.and_eq_true] at h
      exact hq h.2
    have hnext := decode_singleFrame server dcomp (keys i) remainder [] op first true
      compressed ctx0 (hkeys i) hrem hop hopc hcomp
    rw [List.append_nil] at hnext
    simp only [allFramesGo, List.flatten_cons, List.flatten_nil, List.append_nil,
      List.length_nil]
    rw [show (0 + 2 : Nat) = 1 + 1 from rfl]
    rw [decodeLoop_complete 1 _ _ _ hnext]
    rw [decodeLoop_empty 1 server dcomp _ (by omega)]
    simp [expectedFrames]
  | cons c cs2 ih =>
    intro remainder i first ctx0 hcs hrem
    have hcomp : (first && compressed) = true → dcomp = true := by
      intro h
      rw [Bool.and_eq_true] at h
      exact hq h.2
    have hc : c.length ≤ MAX_FRAME_PAYLOAD := hcs c (by simp)
    have hnext := decode_singleFrame server dcomp (keys i) c
      ((allFramesGo server keys op compressed cs2 remainder (i + 1) false).flatten)
      op first false compressed ctx0 (hkeys i) hc hop hopc hcomp
    simp only [allFramesGo, List.flatten_cons, List.length_cons]
    rw [show cs2.length + 1 + 2 = (cs2.length + 2) + 1 from by omega]
    rw [decodeLoop_complete _ _ _ _ hnext]
    rw [ih remainder (i + 1) false _ (fun x hx => hcs x (by simp [hx])) hrem]
    simp [expectedFrames]

theorem chunksGo_spec (n : Nat) (hn : n ≠ 0) :
    ∀ (fuel : Nat) (l : List Nat), l.length ≤ fuel →
      (chunksGo n fuel l).1.flatten ++ (chunksGo n fuel l).2 = l ∧
      (∀ c ∈ (chunksGo n fuel l).1, c.length = n) ∧
      (chunksGo n fuel l).2.length < n := by
  intro fuel
  induction fuel with
  | zero =>
    intro l hl
    have hl0 : l.length = 0 := by omega
    simp [chunksGo]
    omega
  | succ fuel2 ih =>
    intro l hl
    by_cases hc : n ≤ l.length ∧ n ≠ 0
    · have hdrop : (l.drop n).length ≤ fuel2 := by
        simp only [List.length_drop]
        omega
      obtain ⟨hj, hcs, hrem⟩ := ih (l.drop n) hdrop
      unfold chunksGo
      rw [if_pos hc]
      refine ⟨?_, ?_, hrem⟩
      · simp only [List.flatten_cons, List.append_assoc, hj, List.take_append_drop]
      · intro c hcmem
        simp only [List.mem_cons] at hcmem
        rcases hcmem with rfl | hcmem
        · simp [List.length_take]
          omega
        · exact hcs c hcmem
    · unfold chunksGo
      rw [if_neg hc]
      refine ⟨by simp, by simp, ?_⟩
      simp only [not_and] at hc
      by_cases hle : n ≤ l.length
      · exact absurd hn (hc hle)
      · simpa using (by omega : l.length < n)

theorem chunksExact_spec (n : Nat) (hn : n ≠ 0) (l : List Nat) :
    (chunksExact n l).1.flatten ++ (chunksExact n l).2 = l ∧
    (∀ c ∈ (chunksExact n l).1, c.length = n) ∧
    (chunksExact n l).2.length < n :=
  chunksGo_spec n hn l.length l le_rfl

theorem mkPartial_buf (op : Opcode) (data : List Nat) : (mkPartial op data).buf = data := by
  unfold mkPartial
  split <;> rfl

theorem mkPartial_push (op : Opcode) (data bytes : List Nat) :
    (mkPartial op data).push bytes = mkPartial op (data ++ bytes) := by
  unfold mkPartial
  split <;> rfl

/-- Reassembling the continuation frames of a fragmented message: each one
appends its chunk; the final fragment hands the accumulated buffer to
`into_message`, whose Utf8 failure closes with DataError and Deflate
failure with ProtoError. -/
theorem runFrames_conts (inflater : Option (List Nat → Option (List Nat)))
    (useContext : Bool) (op : Opcode) (compressed : Bool) :
    ∀ (cs : List (List Nat)) (remainder acc : List Nat) (evAcc : List WsEvent),
      acc.length + (cs.flatten.length + remainder.length) ≤ MAX_MESSAGE_SIZE →
      runFrames inflater useContext (expectedFrames op compressed cs remainder false)
          (some (mkPartial op acc)) evAcc =
        (match intoMessage inflater useContext (mkPartial op (acc ++ cs.flatten ++ remainder)) with
         | .ok msg => Except.ok (none, evAcc ++ [msg])
         | .error .utf8 => Except.error CloseReason.dataError
         | .error .deflate => Except.error CloseReason.protoError) := by
  intro cs
  induction cs with
  | nil =>
    intro remainder acc evAcc hsize
    simp only [List.flatten_nil, List.length_nil, List.append_nil] at hsize ⊢
    simp only [expectedFrames, Bool.false_eq_true, reduceIte, Bool.false_and]
    simp only [runFrames, handleData, handleDataWith, Bool.false_eq_true, reduceIte]
    rw [mkPartial_buf, if_neg (by omega), mkPartial_push]
    cases hmsg : intoMessage inflater useContext (mkPartial op (acc ++ remainder)) with
    | ok msg => simp [hmsg, runFrames]
    | error e => cases e <;> simp [hmsg]
  | cons c cs2 ih =>
    intro remainder acc evAcc hsize
    simp only [List.flatten_cons, List.length_append] at hsize
    simp only [expectedFrames, Bool.false_eq_true, reduceIte, Bool.false_and]
    simp only [runFrames, handleData, handleDataWith, Bool.false_eq_true, reduceIte]
    rw [mkPartial_buf, if_neg (by omega), mkPartial_push]
    simp only [List.append_nil]
    rw [ih remainder (acc ++ c) evAcc (by simp only [List.length_append]; omega)]
    have hassoc : acc ++ c ++ cs2.flatten ++ remainder =
        acc ++ (c ++ cs2.flatten) ++ remainder := by
      simp [List.append_assoc]
    rw [hassoc]
    simp only [List.flatten_cons]

theorem handleData_start (inflater : Option (List Nat → Option (List Nat)))
    (useContext : Bool) (f : DecodedFrame)
    (hop : f.opcode = Opcode.text ∨ f.opcode = Opcode.bin) :
    handleData inflater useContext f none =
      handleDataWith inflater useContext f (mkPartial f.opcode []) := by
  obtain ⟨fop, fp, ff, fc⟩ := f
  dsimp only at hop ⊢
  rcases hop with rfl | rfl <;> simp [handleData, mkPartial]

/-- Reassembling a whole expected fragment stream from scratch: the first
frame opens the partial message, the continuations extend it, and the
final fragment assembles the full (possibly still compressed)
concatenation. -/
theorem runFrames_top (inflater : Option (List Nat → Option (List Nat)))
    (useContext : Bool) (op : Opcode) (compressed : Bool)
    (hop : op = Opcode.text ∨ op = Opcode.bin) :
    ∀ (cs : List (List Nat)) (remainder : List Nat) (evAcc : List WsEvent),
      cs.flatten.length + remainder.length ≤ MAX_MESSAGE_SIZE →
      runFrames inflater useContext (expectedFrames op compressed cs remainder true)
          none evAcc =
        (match intoMessage inflater useContext (mkPartial op (cs.flatten ++ remainder)) with
         | .ok msg => Except.ok (none, evAcc ++ [msg])
         | .error .utf8 => Except.error CloseReason.dataError
         | .error .deflate => Except.error CloseReason.protoError) := by
  intro cs remainder evAcc hsize
  cases cs with
  | nil =>
    simp only [List.flatten_nil, List.length_nil, List.nil_append, Nat.zero_add] at hsize ⊢
    simp only [expectedFrames, reduceIte, Bool.true_and]
    simp only [runFrames]
    rw [handleData_start inflater useContext _ (by exact hop)]
    dsimp only
    unfold handleDataWith
    rw [mkPartial_buf]
    rw [if_neg (by simp; omega)]
    rw [mkPartial_push, List.nil_append]
    dsimp only
    cases hmsg : intoMessage inflater useContext (mkPartial op remainder) with
    | ok msg => simp [hmsg, runFrames]
    | error e => cases e <;> simp [hmsg]
  | cons c cs2 =>
    simp only [List.flatten_cons, List.length_append] at hsize
    simp only [expectedFrames, reduceIte, Bool.true_and]
    simp only [runFrames]
    rw [handleData_start inflater useContext _ (by exact hop)]
    dsimp only
    unfold handleDataWith
    rw [mkPartial_buf]
    rw [if_neg (by simp; omega)]
    rw [mkPartial_push, List.nil_append]
    dsimp only
    simp only [Bool.false_eq_true, reduceIte, List.append_nil]
    rw [runFrames_conts inflater useContext op compressed cs2 remainder c evAcc
      (by omega)]
    simp only [List.flatten_cons, List.append_assoc]

theorem expectedFrames_getLast (op : Opcode) (compressed : Bool) :
    ∀ (cs : List (List Nat)) (remainder : List Nat) (first : Bool),
      ((expectedFrames op compressed cs remainder first).getLast?).map
        DecodedFrame.isFin = some true := by
  intro cs
  induction cs with
  | nil =>
    intro r first
    simp [expectedFrames]
  | cons c cs2 ih =>
    intro r first
    have h2 := ih r false
    rw [expectedFrames]
    rcases h : expectedFrames op compressed cs2 r false with _ | ⟨f2, fs2⟩
    · rw [h] at h2
      simp at h2
    · rw [h] at h2
      rw [List.getLast?_cons_cons]
      exact h2

/-- C1 (amended): for both roles, both compression settings and payloads up
to 2 MiB (valid UTF-8 when the opcode is Text), feeding the concatenation
of the frames produced by `DataFrame::encode` into a `FrameDecoder` of the
opposite role yields exactly the expected fragment sequence and then
`Ok(None)`, the last fragment carries `fin = true`, and reassembling the
fragments emits exactly one message whose bytes equal the original payload
with the matching event kind.  The external `flate2` streams are abstracted
by `deflate`/`inflate` with their sync-flush round-trip contract as
hypotheses. -/
theorem c1_roundtrip (encClient compressed useContext : Bool) (op : Opcode)
    (keys : Nat → List Nat) (deflate : List Nat → List Nat)
    (inflate : List Nat → Option (List Nat)) (p : List Nat)
    (hop : op = Opcode.text ∨ op = Opcode.bin)
    (hlen : p.length ≤ 2 * 1024 * 1024)
    (hkeys : ∀ j, (keys j).length = 4)
    (hutf8 : op = Opcode.text → utf8Valid p = true)
    (hinf : compressed = true →
      inflate (if useContext then deflate p else deflate p ++ [0, 0, 0xFF, 0xFF]) = some p)
    (hdlen : compressed = true → (deflate p).length ≤ MAX_MESSAGE_SIZE) :
    decodeLoop
        ((chunksExact MAX_FRAME_PAYLOAD (if compressed then deflate p else p)).1.length + 2)
        (FrameDecoder.new encClient compressed
          ((dataFrameEncode encClient keys op
            (if compressed then some deflate else none) p).flatten)) =
      (expectedFrames op compressed
        (chunksExact MAX_FRAME_PAYLOAD (if compressed then deflate p else p)).1
        (chunksExact MAX_FRAME_PAYLOAD (if compressed then deflate p else p)).2 true,
       .pending) ∧
    ((expectedFrames op compressed
        (chunksExact MAX_FRAME_PAYLOAD (if compressed then deflate p else p)).1
        (chunksExact MAX_FRAME_PAYLOAD (if compressed then deflate p else p)).2
        true).getLast?).map DecodedFrame.isFin = some true ∧
    runFrames (if compressed then some inflate else none) useContext
        (expectedFrames op compressed
          (chunksExact MAX_FRAME_PAYLOAD (if compressed then deflate p else p)).1
          (chunksExact MAX_FRAME_PAYLOAD (if compressed then deflate p else p)).2 true)
        none [] =
      Except.ok (none, [if op = Opcode.text then WsEvent.text p else WsEvent.binary p]) := by
  have hopc : op.isControl = false := by rcases hop with rfl | rfl <;> rfl
  have hopcl : op ≠ Opcode.close := by rcases hop with rfl | rfl <;> simp
  cases compressed
  all_goals
    simp only [Bool.false_eq_true, reduceIte]
  -- uncompressed case
  · obtain ⟨hjoin, hchunks, hrem⟩ := chunksExact_spec MAX_FRAME_PAYLOAD (by decide) p
    have hpmax : p.length ≤ MAX_MESSAGE_SIZE := le_trans hlen (by decide)
    have hsize : (chunksExact MAX_FRAME_PAYLOAD p).1.flatten.length +
        (chunksExact MAX_FRAME_PAYLOAD p).2.length ≤ MAX_MESSAGE_SIZE := by
      have := congrArg List.length hjoin
      simp only [List.length_append] at this
      omega
    refine ⟨?_, expectedFrames_getLast op false _ _ _, ?_⟩
    · unfold dataFrameEncode allFrames FrameDecoder.new
      exact decodeLoop_allFramesGo encClient false false op keys hkeys hopc hopcl
        (fun h => h) (chunksExact MAX_FRAME_PAYLOAD p).1
        (chunksExact MAX_FRAME_PAYLOAD p).2 0 true _
        (fun c hc => le_of_eq (hchunks c hc)) (le_of_lt hrem)
    · rw [runFrames_top none useContext op false hop _ _ [] hsize, hjoin]
      rcases hop with rfl | rfl
      · simp [intoMessage, mkPartial, PartialMessage.buf, hutf8 rfl]
      · simp [intoMessage, mkPartial, PartialMessage.buf]
  -- compressed case
  · obtain ⟨hjoin, hchunks, hrem⟩ := chunksExact_spec MAX_FRAME_PAYLOAD (by decide) (deflate p)
    have hpmax : (deflate p).length ≤ MAX_MESSAGE_SIZE := hdlen rfl
    have hsize : (chunksExact MAX_FRAME_PAYLOAD (deflate p)).1.flatten.length +
        (chunksExact MAX_FRAME_PAYLOAD (deflate p)).2.length ≤ MAX_MESSAGE_SIZE := by
      have := congrArg List.length hjoin
      simp only [List.length_append] at this
      omega
    refine ⟨?_, expectedFrames_getLast op true _ _ _, ?_⟩
    · unfold dataFrameEncode allFrames FrameDecoder.new
      exact decodeLoop_allFramesGo encClient true true op keys hkeys hopc hopcl
        (fun h => h) (chunksExact MAX_FRAME_PAYLOAD (deflate p)).1
        (chunksExact MAX_FRAME_PAYLOAD (deflate p)).2 0 true _
        (fun c hc => le_of_eq (hchunks c hc)) (le_of_lt hrem)
    · rw [runFrames_top (some inflate) useContext op true hop _ _ [] hsize, hjoin]
      rcases hop with rfl | rfl
      · simp [intoMessage, mkPartial, PartialMessage.buf, hinf rfl, hutf8 rfl]
      · simp [intoMessage, mkPartial, PartialMessage.buf, hinf rfl]

/-- C1 counterexample (claim as frozen): the claim quantifies over every
payload for opcode Text, but a Text message whose payload `[0xFF]` is not
valid UTF-8 round-trips into a `DataError` close (UTF-8 validation in
`into_message` fails) and no message at all, not "exactly one message whose
bytes equal the original payload". -/
theorem c1_counterexample :
    runFrames none false
        (decodeLoop 2 (FrameDecoder.new false false
          ((dataFrameEncode false (fun _ => [0, 0, 0, 0]) Opcode.text none
            [255]).flatten))).1
        none [] = Except.error CloseReason.dataError := by rfl

/-- C1 witness: the server-encoded Text message "hi" round-trips through
the client-role decoder and reassembly into exactly the event
`Text [104, 105]` with a final `fin` fragment. -/
theorem c1_roundtrip_witness :
    decodeLoop ((chunksExact MAX_FRAME_PAYLOAD [104, 105]).1.length + 2)
        (FrameDecoder.new false false
          ((dataFrameEncode false (fun _ => [1, 2, 3, 4]) Opcode.text none
            [104, 105]).flatten)) =
      (expectedFrames Opcode.text false (chunksExact MAX_FRAME_PAYLOAD [104, 105]).1
        (chunksExact MAX_FRAME_PAYLOAD [104, 105]).2 true, .pending) ∧
    ((expectedFrames Opcode.text false (chunksExact MAX_FRAME_PAYLOAD [104, 105]).1
        (chunksExact MAX_FRAME_PAYLOAD [104, 105]).2 true).getLast?).map
      DecodedFrame.isFin = some true ∧
    runFrames none true
        (expectedFrames Opcode.text false (chunksExact MAX_FRAME_PAYLOAD [104, 105]).1
          (chunksExact MAX_FRAME_PAYLOAD [104, 105]).2 true) none [] =
      Except.ok (none, [WsEvent.text [104, 105]]) :=
  c1_roundtrip false false true Opcode.text (fun _ => [1, 2, 3, 4]) (fun l => l)
    (fun l => some l) [104, 105] (Or.inl rfl) (by decide) (fun _ => rfl)
    (fun _ => by decide) (by simp) (by simp)

end WustSocket
